import Mathlib

/-
Verification of the multiresolution hash encoding engine
(`hash_encoding.py`: `HashEmbedder` and `SHEncoder`).

Real-valued tensor arithmetic is embedded exactly: coordinates, grid
geometry and feature values are rationals, and the transcendental
growth-law computation (`exp`/`log`) lives in the reals.  Batched
tensor operations act row-wise, so a batch is a list of points and the
per-point pipeline is modelled directly.
-/

namespace HashEncoding

variable {F : ℕ}

/-- Trilinear interpolation, translated from
`HashEmbedder.trilinear_interp`.  `x`, `voxel_min_vertex` and
`voxel_max_vertex` are one point's coordinates (a single batch row),
`voxel_embedds` the eight corner feature vectors.  The weights are
`(x - min) / (max - min)` per axis, and the reduction interpolates
along axis 0 (pairing corner `c` with corner `c + 4`), then axis 1,
then axis 2, exactly as in the source. -/
def trilinear_interp (x voxel_min_vertex voxel_max_vertex : Fin 3 → ℚ)
    (voxel_embedds : Fin 8 → Fin F → ℚ) : Fin F → ℚ :=
  let weights : Fin 3 → ℚ := fun d =>
    (x d - voxel_min_vertex d) / (voxel_max_vertex d - voxel_min_vertex d)
  let c00 : Fin F → ℚ := fun f =>
    voxel_embedds 0 f * (1 - weights 0) + voxel_embedds 4 f * weights 0
  let c01 : Fin F → ℚ := fun f =>
    voxel_embedds 1 f * (1 - weights 0) + voxel_embedds 5 f * weights 0
  let c10 : Fin F → ℚ := fun f =>
    voxel_embedds 2 f * (1 - weights 0) + voxel_embedds 6 f * weights 0
  let c11 : Fin F → ℚ := fun f =>
    voxel_embedds 3 f * (1 - weights 0) + voxel_embedds 7 f * weights 0
  let c0 : Fin F → ℚ := fun f => c00 f * (1 - weights 1) + c10 f * weights 1
  let c1 : Fin F → ℚ := fun f => c01 f * (1 - weights 1) + c11 f * weights 1
  fun f => c0 f * (1 - weights 2) + c1 f * weights 2

/-- Offset of corner `c` along axis `d` in the convention used by the
blender: the corner index written in binary, most significant digit
first, is the offset triple along axes `(0, 1, 2)`; so corners `0` and
`4` differ only in the axis-0 offset, matching the axis-0 pairing of
`trilinear_interp`. -/
def cornerOffset (c : Fin 8) (d : Fin 3) : ℤ :=
  ((c.val / 2 ^ (2 - d.val)) % 2 : ℕ)

/-- Modelled from the spec: the Voxel Indexer `get_voxel_vertices` is
imported from `utils`, which is not among the sources; this follows the
contract of spec section 4.3.  It locates the axis-aligned cell of the
given resolution containing the point relative to the bounding box,
returns the cell's min and max corner coordinates in the original
coordinate space, and maps each of the eight integer corner coordinates
to a table slot in `[0, 2 ^ log2_hashmap_size)`.  The spatial hash
itself is a swappable pure collaborator, so it is a parameter `hash`;
its value is reduced modulo the table size to meet the contract's range
requirement. -/
def get_voxel_vertices (x : Fin 3 → ℚ) (box_min box_max : Fin 3 → ℚ)
    (resolution : ℚ) (log2_hashmap_size : ℕ)
    (hash : (Fin 3 → ℤ) → ℕ) :
    (Fin 3 → ℚ) × (Fin 3 → ℚ) × (Fin 8 → ℕ) :=
  let grid_size : Fin 3 → ℚ := fun d => (box_max d - box_min d) / resolution
  let bottom_left_idx : Fin 3 → ℤ := fun d => ⌊(x d - box_min d) / grid_size d⌋
  let voxel_min_vertex : Fin 3 → ℚ := fun d =>
    box_min d + (bottom_left_idx d : ℚ) * grid_size d
  let voxel_max_vertex : Fin 3 → ℚ := fun d => voxel_min_vertex d + grid_size d
  (voxel_min_vertex, voxel_max_vertex,
    fun c => hash (fun d => bottom_left_idx d + cornerOffset c d) %
      2 ^ log2_hashmap_size)

/-- One iteration of the level loop in `HashEmbedder.forward`: resolve
the voxel via the Indexer, gather the eight corner feature vectors from
the level's table by hash index, and blend them trilinearly. -/
def levelEmbed (box_min box_max : Fin 3 → ℚ) (resolution : ℚ)
    (log2_hashmap_size : ℕ) (hash : (Fin 3 → ℤ) → ℕ)
    (table : ℕ → Fin F → ℚ) (x : Fin 3 → ℚ) : Fin F → ℚ :=
  let v := get_voxel_vertices x box_min box_max resolution log2_hashmap_size hash
  trilinear_interp x v.1 v.2.1 fun c => table (v.2.2 c)

/-- Concatenation of the per-level outputs in level order, as built by
the loop plus `torch.cat` in `HashEmbedder.forward`. -/
def levelsConcat : ℕ → (ℕ → List ℚ) → List ℚ
  | 0, _ => []
  | n + 1, f => levelsConcat n f ++ f n

/-- The growth factor `self.b` computed in `HashEmbedder.__init__`,
line 40: `exp((log finest_resolution - log base_resolution) / (n_levels - 1))`. -/
noncomputable def growthFactor (n_levels : ℕ) (base_resolution finest_resolution : ℝ) : ℝ :=
  Real.exp ((Real.log finest_resolution - Real.log base_resolution) /
    ((n_levels : ℝ) - 1))

/-- The per-level grid resolution computed in `HashEmbedder.forward`,
line 91: `floor(base_resolution * b ^ i)`. -/
noncomputable def levelResolution (n_levels : ℕ)
    (base_resolution finest_resolution : ℝ) (i : ℕ) : ℤ :=
  ⌊base_resolution * growthFactor n_levels base_resolution finest_resolution ^ i⌋

/-- The body of `HashEmbedder.forward` for one point, with the level
resolutions supplied as a parameter (they are derived from the
configuration alone; `forward` instantiates them with
`levelResolution`).  `tables` gives every level's feature table. -/
def forwardWith (box_min box_max : Fin 3 → ℚ) (n_levels : ℕ)
    (log2_hashmap_size : ℕ) (resolutions : ℕ → ℚ)
    (hash : (Fin 3 → ℤ) → ℕ) (tables : ℕ → ℕ → Fin F → ℚ)
    (x : Fin 3 → ℚ) : List ℚ :=
  levelsConcat n_levels fun i =>
    List.ofFn fun f : Fin F =>
      levelEmbed box_min box_max (resolutions i) log2_hashmap_size hash
        (tables i) x f

/-- `HashEmbedder.forward` for one point: for each level `i` in
`[0, n_levels)` compute `resolution_i = floor(base * b ^ i)`, embed the
point at that level, and concatenate the per-level feature vectors. -/
noncomputable def forward (box_min box_max : Fin 3 → ℚ) (n_levels : ℕ)
    (log2_hashmap_size : ℕ) (base_resolution finest_resolution : ℝ)
    (hash : (Fin 3 → ℤ) → ℕ) (tables : ℕ → ℕ → Fin F → ℚ)
    (x : Fin 3 → ℚ) : List ℚ :=
  forwardWith box_min box_max n_levels log2_hashmap_size
    (fun i => ((levelResolution n_levels base_resolution finest_resolution i : ℤ) : ℚ))
    hash tables x

/-- A batch of points is encoded row-wise: every tensor operation in
`HashEmbedder.forward` acts per batch row, so the batched call is the
per-point `forward` mapped over the batch. -/
noncomputable def encodeBatch (box_min box_max : Fin 3 → ℚ) (n_levels : ℕ)
    (log2_hashmap_size : ℕ) (base_resolution finest_resolution : ℝ)
    (hash : (Fin 3 → ℤ) → ℕ) (tables : ℕ → ℕ → Fin F → ℚ)
    (xs : List (Fin 3 → ℚ)) : List (List ℚ) :=
  xs.map (forward box_min box_max n_levels log2_hashmap_size
    base_resolution finest_resolution hash tables)

/-- The canonical trilinear-interpolation formula, following the spec's
words (section 4.2): the blended value is the sum over the eight
corners of the corner's feature scaled by the product over the three
axes of `w_d` when the corner's offset on axis `d` is 1 and `1 - w_d`
when it is 0, with `w_d = (x_d - min_d) / (max_d - min_d)` and the
corner ordering of `cornerOffset` (corner index in binary, most
significant digit first, as offsets along axes 0, 1, 2). -/
def trilinear_blend_spec (x voxel_min_vertex voxel_max_vertex : Fin 3 → ℚ)
    (voxel_embedds : Fin 8 → Fin F → ℚ) : Fin F → ℚ :=
  fun f => ∑ c : Fin 8,
    (∏ d : Fin 3,
      if cornerOffset c d = 1 then
        (x d - voxel_min_vertex d) / (voxel_max_vertex d - voxel_min_vertex d)
      else
        1 - (x d - voxel_min_vertex d) / (voxel_max_vertex d - voxel_min_vertex d)) *
      voxel_embedds c f

/-- The state stored by `HashEmbedder.__init__`: the configuration
fields, the derived output width `out_dim = n_levels * n_features_per_level`,
and the growth factor `b` of line 40. -/
structure EmbedderState where
  bounding_box : (Fin 3 → ℚ) × (Fin 3 → ℚ)
  n_levels : ℤ
  n_features_per_level : ℤ
  log2_hashmap_size : ℕ
  base_resolution : ℝ
  finest_resolution : ℝ
  out_dim : ℤ
  b : ℝ

/-- `HashEmbedder.__init__`, translated faithfully: it performs no
validation of its parameters.  The only failing path is the per-level
table allocation `nn.Embedding(2 ** log2_hashmap_size, n_features_per_level)`,
which raises a tensor-allocation error when the feature count is
negative; every other configuration, however degenerate, is stored
without any check. -/
noncomputable def hashEmbedderInit (bounding_box : (Fin 3 → ℚ) × (Fin 3 → ℚ))
    (n_levels n_features_per_level : ℤ) (log2_hashmap_size : ℕ)
    (base_resolution finest_resolution : ℝ) : Except String EmbedderState :=
  if n_features_per_level < 0 then
    Except.error "Trying to create tensor with negative dimension"
  else
    Except.ok
      { bounding_box := bounding_box
        n_levels := n_levels
        n_features_per_level := n_features_per_level
        log2_hashmap_size := log2_hashmap_size
        base_resolution := base_resolution
        finest_resolution := finest_resolution
        out_dim := n_levels * n_features_per_level
        b := Real.exp ((Real.log finest_resolution - Real.log base_resolution) /
          ((n_levels : ℝ) - 1)) }

/-- Whether an `Except` result is a success. -/
def exceptOk {ε α : Type} : Except ε α → Bool
  | Except.ok _ => true
  | Except.error _ => false

end HashEncoding

namespace SHEncoder

/-- The constant coefficient of the degree-0 basis function, from
`SHEncoder.__init__`. -/
def C0 : ℚ := 0.28209479177387814

/-- The degree-1 coefficient, from `SHEncoder.__init__`. -/
def C1 : ℚ := 0.4886025119029199

/-- The degree-2 coefficients, from `SHEncoder.__init__`. -/
def C2 : List ℚ :=
  [1.0925484305920792,
   -1.0925484305920792,
   0.31539156525252005,
   -1.0925484305920792,
   0.5462742152960396]

/-- The degree-3 coefficients, from `SHEncoder.__init__`. -/
def C3 : List ℚ :=
  [-0.5900435899266435,
   2.890611442640554,
   -0.4570457994644658,
   0.3731763325901154,
   -0.4570457994644658,
   1.445305721320277,
   -0.5900435899266435]

/-- The degree-4 coefficients, from `SHEncoder.__init__`. -/
def C4 : List ℚ :=
  [2.5033429417967046,
   -1.7701307697799304,
   0.9461746957575601,
   -0.6690465435572892,
   0.10578554691520431,
   -0.6690465435572892,
   0.47308734787878004,
   -1.7701307697799304,
   0.6258357354491761]

/-- `SHEncoder.forward` for one input vector: the result tensor of
width `degree ^ 2` is filled entry by entry, component 0 always with
`C0` and the components of each further band only when `degree`
exceeds the band's threshold, with the exact polynomial formulas of
the source. -/
def forward (degree : ℕ) (v : Fin 3 → ℚ) : List ℚ :=
  let x := v 0
  let y := v 1
  let z := v 2
  let xx := x * x
  let yy := y * y
  let zz := z * z
  let xy := x * y
  let yz := y * z
  let xz := x * z
  [C0] ++
    (if 1 < degree then
      [(-C1) * y, C1 * z, (-C1) * x] ++
        (if 2 < degree then
          [C2.getD 0 0 * xy,
           C2.getD 1 0 * yz,
           C2.getD 2 0 * (2 * zz - xx - yy),
           C2.getD 3 0 * xz,
           C2.getD 4 0 * (xx - yy)] ++
            (if 3 < degree then
              [C3.getD 0 0 * y * (3 * xx - yy),
               C3.getD 1 0 * xy * z,
               C3.getD 2 0 * y * (4 * zz - xx - yy),
               C3.getD 3 0 * z * (2 * zz - 3 * xx - 3 * yy),
               C3.getD 4 0 * x * (4 * zz - xx - yy),
               C3.getD 5 0 * z * (xx - yy),
               C3.getD 6 0 * x * (xx - 3 * yy)] ++
                (if 4 < degree then
                  [C4.getD 0 0 * xy * (xx - yy),
                   C4.getD 1 0 * yz * (3 * xx - yy),
                   C4.getD 2 0 * xy * (7 * zz - 1),
                   C4.getD 3 0 * yz * (7 * zz - 3),
                   C4.getD 4 0 * (zz * (35 * zz - 30) + 3),
                   C4.getD 5 0 * xz * (7 * zz - 3),
                   C4.getD 6 0 * (xx - yy) * (7 * zz - 1),
                   C4.getD 7 0 * xz * (xx - 3 * yy),
                   C4.getD 8 0 * (xx * (xx - 3 * yy) - yy * (3 * xx - yy))]
                else [])
            else [])
        else [])
    else [])

end SHEncoder

namespace HashEncoding

/-- Helper: when the query point coincides with the voxel's min vertex,
every interpolation weight is `0` and the blend returns corner 0's
feature vector. -/
theorem trilinear_interp_at_min {F : ℕ} (x voxel_min_vertex voxel_max_vertex : Fin 3 → ℚ)
    (e : Fin 8 → Fin F → ℚ) (h : ∀ d, x d = voxel_min_vertex d) :
    trilinear_interp x voxel_min_vertex voxel_max_vertex e = e 0 := by
  funext f
  simp [trilinear_interp, h 0, h 1, h 2]

/-- Helper: the blend of eight all-zero feature vectors is zero. -/
theorem trilinear_interp_zero {F : ℕ} (x voxel_min_vertex voxel_max_vertex : Fin 3 → ℚ) :
    trilinear_interp x voxel_min_vertex voxel_max_vertex (fun _ _ => (0 : ℚ)) =
      fun _ : Fin F => 0 := by
  funext f
  simp [trilinear_interp]

/-- Helper: corner 0 has offset 0 on every axis. -/
theorem cornerOffset_zero (d : Fin 3) : cornerOffset 0 d = 0 := by
  simp [cornerOffset]

end HashEncoding

/-- C3: the trilinear blend uses the corner convention in which the
corner index written in binary, most significant digit first, is the
offset triple along axes 0, 1, 2 (so 0 is the min corner, 7 the max
corner, and corners 0 and 4 differ exactly in the axis-0 offset), and
its reduction — axis 0 first (pairing corner `c` with corner `c + 4`),
then axis 1, then axis 2 — computes exactly the canonical trilinear
formula for that corner convention: `trilinear_interp` coincides with
`trilinear_blend_spec` everywhere. -/
theorem trilinear_interp_eq_blend_spec {F : ℕ}
    (x voxel_min_vertex voxel_max_vertex : Fin 3 → ℚ)
    (voxel_embedds : Fin 8 → Fin F → ℚ) :
    HashEncoding.trilinear_interp x voxel_min_vertex voxel_max_vertex voxel_embedds =
      HashEncoding.trilinear_blend_spec x voxel_min_vertex voxel_max_vertex voxel_embedds := by
  funext f
  simp only [HashEncoding.trilinear_interp, HashEncoding.trilinear_blend_spec,
    Fin.sum_univ_eight, Fin.prod_univ_three,
    show HashEncoding.cornerOffset 0 0 = 0 from by decide,
    show HashEncoding.cornerOffset 0 1 = 0 from by decide,
    show HashEncoding.cornerOffset 0 2 = 0 from by decide,
    show HashEncoding.cornerOffset 1 0 = 0 from by decide,
    show HashEncoding.cornerOffset 1 1 = 0 from by decide,
    show HashEncoding.cornerOffset 1 2 = 1 from by decide,
    show HashEncoding.cornerOffset 2 0 = 0 from by decide,
    show HashEncoding.cornerOffset 2 1 = 1 from by decide,
    show HashEncoding.cornerOffset 2 2 = 0 from by decide,
    show HashEncoding.cornerOffset 3 0 = 0 from by decide,
    show HashEncoding.cornerOffset 3 1 = 1 from by decide,
    show HashEncoding.cornerOffset 3 2 = 1 from by decide,
    show HashEncoding.cornerOffset 4 0 = 1 from by decide,
    show HashEncoding.cornerOffset 4 1 = 0 from by decide,
    show HashEncoding.cornerOffset 4 2 = 0 from by decide,
    show HashEncoding.cornerOffset 5 0 = 1 from by decide,
    show HashEncoding.cornerOffset 5 1 = 0 from by decide,
    show HashEncoding.cornerOffset 5 2 = 1 from by decide,
    show HashEncoding.cornerOffset 6 0 = 1 from by decide,
    show HashEncoding.cornerOffset 6 1 = 1 from by decide,
    show HashEncoding.cornerOffset 6 2 = 0 from by decide,
    show HashEncoding.cornerOffset 7 0 = 1 from by decide,
    show HashEncoding.cornerOffset 7 1 = 1 from by decide,
    show HashEncoding.cornerOffset 7 2 = 1 from by decide]
  norm_num
  ring

/-- C10: the trilinear blend is linear in the corner features: on a
non-degenerate voxel, blending `a • A + b • B` gives `a` times the
blend of `A` plus `b` times the blend of `B`, and the all-zero feature
array blends to the zero vector. -/
theorem trilinear_interp_linear {F : ℕ} (x voxel_min_vertex voxel_max_vertex : Fin 3 → ℚ)
    (hnd : ∀ d, voxel_min_vertex d ≠ voxel_max_vertex d)
    (A B : Fin 8 → Fin F → ℚ) (a b : ℚ) :
    (HashEncoding.trilinear_interp x voxel_min_vertex voxel_max_vertex
        (fun c f => a * A c f + b * B c f) =
      fun f => a * HashEncoding.trilinear_interp x voxel_min_vertex voxel_max_vertex A f +
        b * HashEncoding.trilinear_interp x voxel_min_vertex voxel_max_vertex B f) ∧
    HashEncoding.trilinear_interp x voxel_min_vertex voxel_max_vertex
        (fun (_ : Fin 8) (_ : Fin F) => (0 : ℚ)) = fun _ => 0 := by
  constructor
  · funext f
    simp only [HashEncoding.trilinear_interp]
    ring
  · exact HashEncoding.trilinear_interp_zero x voxel_min_vertex voxel_max_vertex

/-- C10 witness: the linearity statement instantiated at a concrete
point, voxel and feature arrays. -/
theorem trilinear_interp_linear_witness :
    (∀ d : Fin 3, (fun _ : Fin 3 => (0 : ℚ)) d ≠ (fun _ : Fin 3 => (1 : ℚ)) d) ∧
    ((HashEncoding.trilinear_interp (fun _ => 1/3) (fun _ => 0) (fun _ => 1)
        (fun c f => 2 * ((c.val : ℚ)) + 3 * ((f.val : ℚ) + 1)) =
      fun f => 2 * HashEncoding.trilinear_interp (fun _ => 1/3) (fun _ => 0) (fun _ => 1)
          (fun c (_ : Fin 2) => (c.val : ℚ)) f +
        3 * HashEncoding.trilinear_interp (fun _ => 1/3) (fun _ => 0) (fun _ => 1)
          (fun (_ : Fin 8) f => (f.val : ℚ) + 1) f) ∧
    HashEncoding.trilinear_interp (fun _ => 1/3) (fun _ => 0) (fun _ => 1)
        (fun (_ : Fin 8) (_ : Fin 2) => (0 : ℚ)) = fun _ => 0) :=
  ⟨fun _ => by norm_num,
    trilinear_interp_linear (fun _ => 1/3) (fun _ => 0) (fun _ => 1)
      (fun _ => by norm_num)
      (fun c (_ : Fin 2) => (c.val : ℚ)) (fun (_ : Fin 8) f => (f.val : ℚ) + 1) 2 3⟩

/-- C1: for any positive resolution and proper bounding box, a query
point lying exactly at an integer grid corner `g` of the level's voxel
grid is located in the cell whose min vertex is `g` itself, every
interpolation weight collapses to `0`, and the level's blended feature
is exactly the table entry at that corner's hash index. -/
theorem levelEmbed_at_corner {F : ℕ} (box_min box_max : Fin 3 → ℚ) (resolution : ℚ)
    (log2_hashmap_size : ℕ) (hash : (Fin 3 → ℤ) → ℕ) (table : ℕ → Fin F → ℚ)
    (g : Fin 3 → ℤ) (x : Fin 3 → ℚ)
    (hres : 0 < resolution) (hbox : ∀ d, box_min d < box_max d)
    (hx : ∀ d, x d = box_min d + (g d : ℚ) * ((box_max d - box_min d) / resolution)) :
    HashEncoding.levelEmbed box_min box_max resolution log2_hashmap_size hash table x =
      table (hash g % 2 ^ log2_hashmap_size) := by
  have hgrid : ∀ d, (0 : ℚ) < (box_max d - box_min d) / resolution := fun d =>
    div_pos (sub_pos.mpr (hbox d)) hres
  have hidx : ∀ d, ⌊(x d - box_min d) / ((box_max d - box_min d) / resolution)⌋ = g d := by
    intro d
    have hnum : x d - box_min d = (g d : ℚ) * ((box_max d - box_min d) / resolution) := by
      rw [hx d]; ring
    rw [hnum, mul_div_assoc, div_self (ne_of_gt (hgrid d)), mul_one, Int.floor_intCast]
  have hvmin : ∀ d, x d =
      box_min d + ((⌊(x d - box_min d) / ((box_max d - box_min d) / resolution)⌋ : ℤ) : ℚ) *
        ((box_max d - box_min d) / resolution) := by
    intro d
    rw [hidx d, ← hx d]
  have hcorner : (fun d => ⌊(x d - box_min d) / ((box_max d - box_min d) / resolution)⌋ +
      HashEncoding.cornerOffset 0 d) = g := by
    funext d
    rw [hidx d, HashEncoding.cornerOffset_zero, add_zero]
  simp only [HashEncoding.levelEmbed, HashEncoding.get_voxel_vertices]
  rw [HashEncoding.trilinear_interp_at_min _ _ _ _ hvmin]
  rw [hcorner]

/-- C1 witness: bounding box `[(0,0,0),(1,1,1)]`, resolution 2, the
query point exactly at grid corner `(0,0,0)`, and a table holding
`(1,1)` at the Indexer's slot for that corner: the level's output is
exactly `(1,1)`. -/
theorem levelEmbed_at_corner_witness :
    (0 : ℚ) < 2 ∧
    (∀ d : Fin 3, (fun _ : Fin 3 => (0 : ℚ)) d < (fun _ : Fin 3 => (1 : ℚ)) d) ∧
    (∀ d : Fin 3, (fun _ : Fin 3 => (0 : ℚ)) d = (fun _ : Fin 3 => (0 : ℚ)) d +
      (((fun _ : Fin 3 => (0 : ℤ)) d : ℚ)) *
        (((fun _ : Fin 3 => (1 : ℚ)) d - (fun _ : Fin 3 => (0 : ℚ)) d) / 2)) ∧
    List.ofFn (HashEncoding.levelEmbed (fun _ => 0) (fun _ => 1) 2 4
      (fun c => (c 0 + 2 * c 1 + 4 * c 2).toNat)
      (fun n (_ : Fin 2) => if n = 0 then (1 : ℚ) else 0)
      (fun _ => 0)) = [1, 1] := by
  refine ⟨by norm_num, fun d => by norm_num, fun d => by norm_num, ?_⟩
  rw [levelEmbed_at_corner (fun _ => 0) (fun _ => 1) 2 4
    (fun c => (c 0 + 2 * c 1 + 4 * c 2).toNat)
    (fun n (_ : Fin 2) => if n = 0 then (1 : ℚ) else 0)
    (fun _ => 0) (fun _ => 0)
    (by norm_num) (fun d => by norm_num) (fun d => by norm_num)]
  rfl

namespace HashEncoding

/-- Helper: a level whose feature table is identically zero embeds
every point to the zero vector, whatever the resolution and hash. -/
theorem levelEmbed_zero_table {F : ℕ} (box_min box_max : Fin 3 → ℚ) (resolution : ℚ)
    (log2_hashmap_size : ℕ) (hash : (Fin 3 → ℤ) → ℕ) (x : Fin 3 → ℚ) :
    levelEmbed box_min box_max resolution log2_hashmap_size hash
      (fun _ (_ : Fin F) => (0 : ℚ)) x = fun _ => 0 := by
  funext f
  simp [levelEmbed, trilinear_interp]

/-- Helper: concatenating `n` level outputs of length `F` each yields a
list of length `n * F`. -/
theorem levelsConcat_length (n : ℕ) (f : ℕ → List ℚ) (F : ℕ)
    (h : ∀ i, (f i).length = F) : (levelsConcat n f).length = n * F := by
  induction n with
  | zero => simp [levelsConcat]
  | succ n ih =>
    simp only [levelsConcat, List.length_append, ih, h n]
    ring

/-- Helper: one point's encoding has length `n_levels * F`. -/
theorem forward_length {F : ℕ} (box_min box_max : Fin 3 → ℚ) (n_levels : ℕ)
    (log2_hashmap_size : ℕ) (base_resolution finest_resolution : ℝ)
    (hash : (Fin 3 → ℤ) → ℕ) (tables : ℕ → ℕ → Fin F → ℚ) (x : Fin 3 → ℚ) :
    (forward box_min box_max n_levels log2_hashmap_size base_resolution
      finest_resolution hash tables x).length = n_levels * F := by
  show (levelsConcat n_levels _).length = n_levels * F
  exact levelsConcat_length n_levels _ F fun i => List.length_ofFn _

end HashEncoding

/-- C2: in the configuration `n_levels = 2`, `n_features_per_level = 2`,
`log2_hashmap_size = 4`, `base_resolution = 2`, `finest_resolution = 4`,
bounding box `[(0,0,0),(1,1,1)]` and query point `(1/2, 1/2, 1/2)`,
an encoder whose feature tables are all zero returns the zero vector of
length 4, for every hash the Indexer may use. -/
theorem forward_zero_tables (hash : (Fin 3 → ℤ) → ℕ) :
    HashEncoding.forward (fun _ => (0 : ℚ)) (fun _ => (1 : ℚ)) 2 4 (2 : ℝ) (4 : ℝ) hash
      (fun _ _ (_ : Fin 2) => (0 : ℚ)) (fun _ => (1 : ℚ) / 2) = [0, 0, 0, 0] := by
  have hlevel : ∀ resolution : ℚ,
      HashEncoding.levelEmbed (fun _ => (0 : ℚ)) (fun _ => (1 : ℚ)) resolution 4 hash
        (fun _ (_ : Fin 2) => (0 : ℚ)) (fun _ => (1 : ℚ) / 2) = fun _ => 0 := fun resolution =>
    HashEncoding.levelEmbed_zero_table _ _ resolution 4 hash _
  simp only [HashEncoding.forward, HashEncoding.forwardWith, hlevel]
  rfl

/-- C8: for every configuration and every batch of points, including
the empty batch, `encodeBatch` returns one vector per point, each of
length exactly `n_levels * n_features_per_level`, and the empty batch
maps to the empty output without error. -/
theorem encode_output_length {F : ℕ} (box_min box_max : Fin 3 → ℚ) (n_levels : ℕ)
    (log2_hashmap_size : ℕ) (base_resolution finest_resolution : ℝ)
    (hash : (Fin 3 → ℤ) → ℕ) (tables : ℕ → ℕ → Fin F → ℚ)
    (xs : List (Fin 3 → ℚ)) :
    (HashEncoding.encodeBatch box_min box_max n_levels log2_hashmap_size
        base_resolution finest_resolution hash tables xs).length = xs.length ∧
    (∀ v ∈ HashEncoding.encodeBatch box_min box_max n_levels log2_hashmap_size
        base_resolution finest_resolution hash tables xs,
      v.length = n_levels * F) ∧
    HashEncoding.encodeBatch box_min box_max n_levels log2_hashmap_size
      base_resolution finest_resolution hash tables [] = [] := by
  refine ⟨by simp [HashEncoding.encodeBatch], ?_, rfl⟩
  intro v hv
  simp only [HashEncoding.encodeBatch, List.mem_map] at hv
  obtain ⟨x, _, rfl⟩ := hv
  exact HashEncoding.forward_length box_min box_max n_levels log2_hashmap_size
    base_resolution finest_resolution hash tables x

/-- C6 counterexample: the degenerate configuration `n_levels = 0`
(with `n_features_per_level = 2`, `log2_hashmap_size = 4`,
`base_resolution = 2`, `finest_resolution = 4`) is accepted by
construction: `__init__` performs no validation, so no configuration
error is raised, contradicting the claim that construction fails. -/
theorem init_accepts_degenerate_cex :
    HashEncoding.exceptOk (HashEncoding.hashEmbedderInit
      (fun _ => (0 : ℚ), fun _ => (1 : ℚ)) 0 2 4 (2 : ℝ) (4 : ℝ)) = true := by
  rfl

/-- C6 amended: construction never fails with a configuration error:
for every bounding box and every configuration with a non-negative
feature count — `n_levels < 1` and `finest_resolution < base_resolution`
included — `__init__` succeeds.  (The only failing path is the
tensor-allocation error for a negative feature count, which is not a
configuration check.) -/
theorem init_ok_of_nonneg_features (bounding_box : (Fin 3 → ℚ) × (Fin 3 → ℚ))
    (n_levels n_features_per_level : ℤ) (log2_hashmap_size : ℕ)
    (base_resolution finest_resolution : ℝ) (h : 0 ≤ n_features_per_level) :
    HashEncoding.exceptOk (HashEncoding.hashEmbedderInit bounding_box n_levels
      n_features_per_level log2_hashmap_size base_resolution finest_resolution) = true := by
  simp only [HashEncoding.hashEmbedderInit]
  rw [if_neg (not_lt.mpr h)]
  rfl

/-- C6 amended witness: a configuration with `finest_resolution <
base_resolution` is likewise accepted without error. -/
theorem init_ok_of_nonneg_features_witness :
    (0 : ℤ) ≤ 1 ∧
    HashEncoding.exceptOk (HashEncoding.hashEmbedderInit
      (fun _ => (0 : ℚ), fun _ => (1 : ℚ)) 3 1 4 (5 : ℝ) (3 : ℝ)) = true :=
  ⟨by norm_num,
    init_ok_of_nonneg_features (fun _ => (0 : ℚ), fun _ => (1 : ℚ)) 3 1 4 5 3 (by norm_num)⟩

/-- C7: for every configuration with at least two levels, positive base
resolution and `base_resolution ≤ finest_resolution` (so that the
growth law's division by `n_levels - 1` is defined), the per-level
resolutions `floor(base * growth^i)` are monotonically non-decreasing
in the level index, the level-0 resolution is within 1 unit of
`base_resolution`, and the last level's resolution is within 1 unit of
`finest_resolution`. -/
theorem levelResolution_monotone_endpoints (n_levels : ℕ) (base finest : ℝ)
    (hL : 2 ≤ n_levels) (hb : 0 < base) (hf : base ≤ finest) :
    (∀ i j, i ≤ j → HashEncoding.levelResolution n_levels base finest i ≤
      HashEncoding.levelResolution n_levels base finest j) ∧
    |((HashEncoding.levelResolution n_levels base finest 0 : ℤ) : ℝ) - base| ≤ 1 ∧
    |((HashEncoding.levelResolution n_levels base finest (n_levels - 1) : ℤ) : ℝ) - finest| ≤ 1 := by
  have hfin : (0 : ℝ) < finest := lt_of_lt_of_le hb hf
  have hden : (0 : ℝ) < (n_levels : ℝ) - 1 := by
    have h2 : (2 : ℝ) ≤ (n_levels : ℝ) := by exact_mod_cast hL
    linarith
  have hg : 1 ≤ HashEncoding.growthFactor n_levels base finest := by
    rw [HashEncoding.growthFactor]
    apply Real.one_le_exp
    apply div_nonneg _ hden.le
    have hlog := (Real.log_le_log_iff hb hfin).mpr hf
    linarith
  refine ⟨?_, ?_, ?_⟩
  · intro i j hij
    apply Int.floor_mono
    exact mul_le_mul_of_nonneg_left (pow_le_pow_right₀ hg hij) hb.le
  · have h0 : HashEncoding.levelResolution n_levels base finest 0 = ⌊base⌋ := by
      rw [HashEncoding.levelResolution, pow_zero, mul_one]
    rw [h0, abs_le]
    have hle : ((⌊base⌋ : ℤ) : ℝ) ≤ base := Int.floor_le base
    have hgt : base - 1 < ((⌊base⌋ : ℤ) : ℝ) := Int.sub_one_lt_floor base
    constructor <;> linarith
  · have hpow : HashEncoding.growthFactor n_levels base finest ^ (n_levels - 1) =
        finest / base := by
      rw [HashEncoding.growthFactor, ← Real.exp_nat_mul,
        Nat.cast_sub (by omega : 1 ≤ n_levels), Nat.cast_one,
        mul_div_cancel₀ _ (ne_of_gt hden), Real.exp_sub,
        Real.exp_log hfin, Real.exp_log hb]
    have hlast : HashEncoding.levelResolution n_levels base finest (n_levels - 1) =
        ⌊finest⌋ := by
      rw [HashEncoding.levelResolution, hpow, mul_div_cancel₀ _ (ne_of_gt hb)]
    rw [hlast, abs_le]
    have hle : ((⌊finest⌋ : ℤ) : ℝ) ≤ finest := Int.floor_le finest
    have hgt : finest - 1 < ((⌊finest⌋ : ℤ) : ℝ) := Int.sub_one_lt_floor finest
    constructor <;> linarith

/-- C7 witness: the resolution law at the concrete configuration
`n_levels = 2, base_resolution = 16, finest_resolution = 512`. -/
theorem levelResolution_monotone_endpoints_witness :
    2 ≤ 2 ∧ (0 : ℝ) < 16 ∧ (16 : ℝ) ≤ 512 ∧
    ((∀ i j, i ≤ j → HashEncoding.levelResolution 2 16 512 i ≤
        HashEncoding.levelResolution 2 16 512 j) ∧
      |((HashEncoding.levelResolution 2 16 512 0 : ℤ) : ℝ) - 16| ≤ 1 ∧
      |((HashEncoding.levelResolution 2 16 512 (2 - 1) : ℤ) : ℝ) - 512| ≤ 1) :=
  ⟨by norm_num, by norm_num, by norm_num,
    levelResolution_monotone_endpoints 2 16 512 (by norm_num) (by norm_num) (by norm_num)⟩

/-- C9: for every input vector and every degree `d` in `[1,5]` (the
range the constructor asserts), the directional encoder's output has
length exactly `d ^ 2`, its first component is the constant `C0`, and
the basis is hierarchical: for `d ≥ 2`, the encoder of degree `d - 1`
produces exactly the first `(d - 1) ^ 2` components of the degree-`d`
encoder on the same vector. -/
theorem sh_forward_nested (degree : ℕ) (h1 : 1 ≤ degree) (h5 : degree ≤ 5)
    (v : Fin 3 → ℚ) :
    (SHEncoder.forward degree v).length = degree ^ 2 ∧
    (SHEncoder.forward degree v).getD 0 0 = SHEncoder.C0 ∧
    (2 ≤ degree → SHEncoder.forward (degree - 1) v =
      (SHEncoder.forward degree v).take ((degree - 1) ^ 2)) := by
  interval_cases degree
  · exact ⟨rfl, rfl, fun h => absurd h (by norm_num)⟩
  · exact ⟨rfl, rfl, fun _ => rfl⟩
  · exact ⟨rfl, rfl, fun _ => rfl⟩
  · exact ⟨rfl, rfl, fun _ => rfl⟩
  · exact ⟨rfl, rfl, fun _ => rfl⟩

/-- C9 witness: the directional-encoder properties at degree 3 and a
concrete direction vector. -/
theorem sh_forward_nested_witness :
    1 ≤ 3 ∧ 3 ≤ 5 ∧
    ((SHEncoder.forward 3 (fun _ => 1)).length = 3 ^ 2 ∧
      (SHEncoder.forward 3 (fun _ => 1)).getD 0 0 = SHEncoder.C0 ∧
      (2 ≤ 3 → SHEncoder.forward (3 - 1) (fun _ => 1) =
        (SHEncoder.forward 3 (fun _ => 1)).take ((3 - 1) ^ 2))) :=
  ⟨by norm_num, by norm_num, sh_forward_nested 3 (by norm_num) (by norm_num) (fun _ => 1)⟩
